import Mathlib

/-!
Verification development for the movie-metadata preprocessing pipeline
(`first.py`).  The Python program is shallowly embedded: Python run-time
values are the inductive `PyVal`, the safe literal parser (`ast.literal_eval`
restricted to literal containers and scalars) is `literalEval`, the
field-level transforms `extract_genre_names` and `coerce_adult` are direct
translations, and the batch pipeline `preprocess` is modelled column by
column (numeric coercion, zero-as-missing, `log1p`, min-max scaling,
one-hot encoding of the language, multi-label binarization of the genre
lists, and the row-aligned assembly of the final table).

Model boundaries, stated once here:
* machine floats are modelled by exact arithmetic (`ℚ` for parsed values,
  `ℝ` for the log/scale stage); where finiteness matters — `np.log1p` is
  non-finite at and below `-1` — the float pipeline is modelled separately
  (`log1pF`, `minMaxScaleF`, `budgetNormF`) with `Option.none` as the
  non-finite cell, NaN ignored by the scaler's fit and propagated by its
  transform;
* dictionary keys and extracted category names are strings — in the data
  and in every example of the documentation the `"name"` field is a string,
  and the downstream binarizer sorts the names, which requires them to be
  homogeneous;
* the literal parser covers the literal fragment actually exercised:
  `None`/`True`/`False`, decimal numbers, quoted strings without escape
  sequences, lists and string-keyed dictionaries.
-/

namespace MoviePrep

/-- A Python run-time value as the pipeline sees it: `none` is Python
`None`, `nan` is the float NaN that pandas uses for a missing cell,
`num` covers `int` and `float` scalars, and `dict` is a string-keyed
dictionary in insertion order. -/
inductive PyVal where
  | none : PyVal
  | nan : PyVal
  | bool (b : Bool) : PyVal
  | num (q : ℚ) : PyVal
  | str (s : String) : PyVal
  | list (xs : List PyVal) : PyVal
  | dict (xs : List (String × PyVal)) : PyVal

/-- Test used by `extract_genre_names` for the shape of one genre entry. -/
def PyVal.isList : PyVal → Bool
  | .list _ => true
  | _ => false

def PyVal.isStr : PyVal → Bool
  | .str _ => true
  | _ => false

/-- `d.get (k)` on a Python dict built in insertion order: a later binding of
the same key overwrites an earlier one, so the fold keeps the last match. -/
def getFromDict (es : List (String × PyVal)) (k : String) : Option PyVal :=
  es.foldl (fun acc e => if e.1 = k then some e.2 else acc) Option.none

/-- The single quote character (kept out of literal syntax). -/
def squote : Char := Char.ofNat 39

/-- The double quote character. -/
def dquote : Char := Char.ofNat 34

def isWsChar (c : Char) : Bool :=
  c = ' ' || c = '\t' || c = '\n' || c = '\r'

def skipWs : List Char → List Char
  | [] => []
  | c :: cs => if isWsChar c then skipWs cs else c :: cs

/-- Scan the body of a quoted string literal up to the closing quote `q`;
escape sequences are outside the modelled fragment, so a backslash makes
the scan fail. -/
def takeStr (q : Char) : List Char → Option (List Char × List Char)
  | [] => Option.none
  | c :: cs =>
    if c = q then some ([], cs)
    else if c = '\\' then Option.none
    else match takeStr q cs with
         | some (s, r) => some (c :: s, r)
         | Option.none => Option.none

def digitsToNat (ds : List Char) : ℕ :=
  ds.foldl (fun n c => 10 * n + (c.toNat - 48)) 0

/-- Parse an unsigned decimal number (integer part, optional fraction)
returning the exact value and the unconsumed input. -/
def parseNumber (cs : List Char) : Option (ℚ × List Char) :=
  let ip := cs.takeWhile Char.isDigit
  let r1 := cs.dropWhile Char.isDigit
  if ip = [] then Option.none
  else
    match r1 with
    | '.' :: r2 =>
      let fp := r2.takeWhile Char.isDigit
      let r3 := r2.dropWhile Char.isDigit
      some ((digitsToNat ip : ℚ) + (digitsToNat fp : ℚ) / ((10 : ℚ) ^ fp.length), r3)
    | _ => some ((digitsToNat ip : ℚ), r1)

mutual

/-- One literal value: keyword, number (with optional unary sign), quoted
string, list, or dictionary.  `fuel` bounds the recursion depth. -/
def parseVal : ℕ → List Char → Option (PyVal × List Char)
  | 0, _ => Option.none
  | fuel + 1, cs0 =>
    match skipWs cs0 with
    | [] => Option.none
    | c :: cs =>
      if c = '[' then
        match parseListItems fuel cs with
        | some (xs, rest) => some (.list xs, rest)
        | Option.none => Option.none
      else if c = '{' then
        match parseDictItems fuel cs with
        | some (es, rest) => some (.dict es, rest)
        | Option.none => Option.none
      else if c = dquote || c = squote then
        match takeStr c cs with
        | some (s, rest) => some (.str (String.mk s), rest)
        | Option.none => Option.none
      else if c = '-' then
        match parseNumber (skipWs cs) with
        | some (q, rest) => some (.num (-q), rest)
        | Option.none => Option.none
      else if c = '+' then
        match parseNumber (skipWs cs) with
        | some (q, rest) => some (.num q, rest)
        | Option.none => Option.none
      else if c.isDigit then
        match parseNumber (c :: cs) with
        | some (q, rest) => some (.num q, rest)
        | Option.none => Option.none
      else
        let w := String.mk ((c :: cs).takeWhile Char.isAlpha)
        let rest := (c :: cs).dropWhile Char.isAlpha
        if w = "None" then some (.none, rest)
        else if w = "True" then some (.bool true, rest)
        else if w = "False" then some (.bool false, rest)
        else Option.none

/-- Items of a list literal, after the opening bracket; a trailing comma is
accepted, as in Python. -/
def parseListItems : ℕ → List Char → Option (List PyVal × List Char)
  | 0, _ => Option.none
  | fuel + 1, cs =>
    match skipWs cs with
    | ']' :: rest => some ([], rest)
    | cs1 =>
      match parseVal fuel cs1 with
      | some (v, r1) =>
        match skipWs r1 with
        | ',' :: r2 =>
          match parseListItems fuel r2 with
          | some (vs, r3) => some (v :: vs, r3)
          | Option.none => Option.none
        | ']' :: r2 => some ([v], r2)
        | _ => Option.none
      | Option.none => Option.none

/-- Entries of a dictionary literal, after the opening brace; keys are
string literals (the modelled fragment). -/
def parseDictItems : ℕ → List Char → Option (List (String × PyVal) × List Char)
  | 0, _ => Option.none
  | fuel + 1, cs =>
    match skipWs cs with
    | [] => Option.none
    | c :: cs1 =>
      if c = '}' then some ([], cs1)
      else if c = dquote || c = squote then
        match takeStr c cs1 with
        | some (k, r1) =>
          match skipWs r1 with
          | ':' :: r2 =>
            match parseVal fuel r2 with
            | some (v, r3) =>
              match skipWs r3 with
              | ',' :: r4 =>
                match parseDictItems fuel r4 with
                | some (es, r5) => some ((String.mk k, v) :: es, r5)
                | Option.none => Option.none
              | '}' :: r4 => some ([(String.mk k, v)], r4)
              | _ => Option.none
            | Option.none => Option.none
          | _ => Option.none
        | Option.none => Option.none
      else Option.none

end

/-- Model of `ast.literal_eval`: parse one literal value and require the
remainder to be whitespace; `Option.none` is a `ValueError`/`SyntaxError`. -/
def literalEval (s : String) : Option PyVal :=
  match parseVal (2 * s.length + 2) s.data with
  | some (v, rest) => if skipWs rest = [] then some v else Option.none
  | Option.none => Option.none

/-- The `"name"` value of one parsed genre entry: the element must be a
dict with a `"name"` key (`isinstance(g, dict) and "name" in g`); the
stored value is a string in the modelled data. -/
def nameOfGenre : PyVal → Option String
  | .dict es =>
    match getFromDict es "name" with
    | some (.str s) => some s
    | _ => Option.none
  | _ => Option.none

/-- Direct translation of `extract_genre_names` (first.py, lines 13-36):
a structured list is scanned element-wise; a string is parsed with the
safe literal parser and, when the result is a list, scanned the same way;
every other input — and every parse failure — yields the empty list. -/
def extract_genre_names : PyVal → List String
  | .list gs => gs.filterMap nameOfGenre
  | .str s =>
    match literalEval s with
    | some (.list gs) => gs.filterMap nameOfGenre
    | _ => []
  | _ => []

/-- `ast.literal_eval` with its exception made explicit. -/
def literalEvalE (s : String) : Except String PyVal :=
  match literalEval s with
  | some v => Except.ok v
  | Option.none => Except.error "malformed node or string"

/-- `extract_genre_names` with exceptions made explicit: the string branch
runs the parser inside `try`, and the `except (ValueError, SyntaxError)`
arm falls through to the final `return []`. -/
def extract_genre_namesE (v : PyVal) : Except String (List String) :=
  match v with
  | .list gs => Except.ok (gs.filterMap nameOfGenre)
  | .str s =>
    match literalEvalE s with
    | Except.ok (.list gs) => Except.ok (gs.filterMap nameOfGenre)
    | Except.ok _ => Except.ok []
    | Except.error _ => Except.ok []
  | _ => Except.ok []

/-- ASCII lower-casing of one character (`str.lower`, ASCII fragment). -/
def pyLowerChar (c : Char) : Char :=
  if 65 ≤ c.toNat && c.toNat ≤ 90 then Char.ofNat (c.toNat + 32) else c

/-- Model of `value.strip().lower()`: drop surrounding whitespace, then
lower-case (ASCII fragment of the Unicode rules). -/
def pyStripLower (s : String) : String :=
  String.mk (((s.data.dropWhile isWsChar).reverse.dropWhile isWsChar).reverse.map pyLowerChar)

/-- Direct translation of `coerce_adult` (first.py, lines 39-57): native
booleans pass through, numbers (the float NaN included) go through
`bool(value)`, strings are stripped, lower-cased and matched against the
two literal sets, and everything else is `False`. -/
def coerce_adult : PyVal → Bool
  | .bool b => b
  | .num q => decide (q ≠ 0)
  | .nan => true
  | .str s =>
    let w := pyStripLower s
    if w ∈ (["true", "t", "1", "yes", "y"] : List String) then true
    else if w ∈ (["false", "f", "0", "no", "n"] : List String) then false
    else false
  | _ => false

/-- The affirmative text set named by the specification. -/
def affirmativeSet : List String := ["true", "t", "1", "yes", "y"]

/-- The negative text set named by the specification. -/
def negativeSet : List String := ["false", "f", "0", "no", "n"]

/-- Reference definition of the boolean coercion, written from the
specification's policy clauses in their stated precedence order: a native
boolean passes through; a numeric value (NaN is a float, hence numeric and
non-zero) is truthy iff non-zero; trimmed, lower-cased text is matched
against the affirmative and negative sets; anything else is false. -/
def coerceAdultSpec (v : PyVal) : Bool :=
  match v with
  | .bool b => b
  | .num q => decide (q ≠ 0)
  | .nan => true
  | .str s =>
    let w := pyStripLower s
    if w ∈ affirmativeSet then true
    else if w ∈ negativeSet then false
    else false
  | _ => false

/-- Full-consumption unsigned number parse, for `pd.to_numeric` on text. -/
def parseFullNum (cs : List Char) : Option ℚ :=
  match parseNumber cs with
  | some (q, []) => some q
  | _ => Option.none

/-- Numeric parse of a text cell: surrounding whitespace is tolerated, an
optional sign precedes a decimal number, and anything else fails. -/
def parseNumStr (s : String) : Option ℚ :=
  let cs := (s.data.dropWhile isWsChar).reverse.dropWhile isWsChar |>.reverse
  match cs with
  | '-' :: rest => (parseFullNum rest).map Neg.neg
  | '+' :: rest => parseFullNum rest
  | _ => parseFullNum cs

/-- Model of `pd.to_numeric (value, errors = "coerce")` on one cell:
numbers pass through, booleans numerify, parseable text is converted, and
every other value — `None`, NaN, containers, unparseable text — coerces to
NaN (`Option.none`). -/
def toNumeric : PyVal → Option ℚ
  | .num q => some q
  | .bool b => some (if b then 1 else 0)
  | .str s => parseNumStr s
  | _ => Option.none

/-- The zeros-as-missing step (first.py, line 91): a literal zero budget is
replaced by NaN. -/
def budgetMissZero (o : Option ℚ) : Option ℚ :=
  if o = some 0 then Option.none else o

/-- The finite value of `np.log1p`, valid on inputs above `-1`; below that
threshold the float transform is not finite, which `log1pF` models. -/
noncomputable def log1p (x : ℝ) : ℝ := Real.log (1 + x)

/-- `np.log1p` as the float code computes it: a finite real for `x > -1`,
and a non-finite cell (`Option.none`: NaN for `x < -1`, the non-finite
`-inf` at exactly `-1`) otherwise. -/
noncomputable def log1pF (x : ℝ) : Option ℝ :=
  if -1 < x then some (Real.log (1 + x)) else Option.none

/-- The finite entries of a float column, as `np.nanmin` and `np.nanmax`
see them. -/
def finiteVals (xs : List (Option ℝ)) : List ℝ := xs.filterMap id

/-- Minimum of a column, as the scaler's fit step observes it. -/
noncomputable def listMin : List ℝ → ℝ
  | [] => 0
  | x :: xs => xs.foldl min x

/-- Maximum of a column, as the scaler's fit step observes it. -/
noncomputable def listMax : List ℝ → ℝ
  | [] => 0
  | x :: xs => xs.foldl max x

/-- The scaler's multiplier: `(1 - 0) / data_range`, with a zero range
replaced by one exactly as `MinMaxScaler` handles a constant column. -/
noncomputable def mmScale (xs : List ℝ) : ℝ :=
  if listMax xs - listMin xs = 0 then 1 else 1 / (listMax xs - listMin xs)

/-- `MinMaxScaler().fit_transform` on one column with the default feature
range `[0, 1]`: every entry becomes `(x - data_min) * scale`. -/
noncomputable def minMaxScale (xs : List ℝ) : List ℝ :=
  xs.map (fun y => (y - listMin xs) * mmScale xs)

/-- `MinMaxScaler` on a float column that may hold NaN cells: the fit
ignores them (`np.nanmin`/`np.nanmax`) and the transform propagates them.
This is exact for NaN; a `-inf` cell also yields non-finite output in the
program, but its interaction with the fit is not modelled further. -/
noncomputable def minMaxScaleF (xs : List (Option ℝ)) : List (Option ℝ) :=
  xs.map (fun o => o.map (fun y => (y - listMin (finiteVals xs)) * mmScale (finiteVals xs)))

/-- One row of the one-hot encoding: an indicator per category. -/
def langRow (cats : List String) (v : String) : List ℕ :=
  cats.map (fun c => if c = v then 1 else 0)

/-- One row of the multi-label binarization: an indicator per vocabulary
class, set when the class occurs in the row's list. -/
def mlbRow (classes : List String) (row : List String) : List ℕ :=
  classes.map (fun c => if c ∈ row then 1 else 0)

/-- The input table: the raw columns the pipeline reads, each one either
present (with one cell per row) or absent — `movies.get` supplies the
default column in the absent case.  The language column is text-or-missing,
which is what the CSV reader produces for it. -/
structure InputTable where
  nrows : ℕ
  genres : Option (List PyVal)
  budget : Option (List PyVal)
  adult : Option (List PyVal)
  original_language : Option (List (Option String))
  id : Option (List PyVal)
  original_title : Option (List PyVal)
  overview : Option (List PyVal)

/-- Every present column has one cell per row. -/
def InputTable.WF (t : InputTable) : Prop :=
  (∀ l ∈ t.genres, l.length = t.nrows) ∧
  (∀ l ∈ t.budget, l.length = t.nrows) ∧
  (∀ l ∈ t.adult, l.length = t.nrows) ∧
  (∀ l ∈ t.original_language, l.length = t.nrows) ∧
  (∀ l ∈ t.id, l.length = t.nrows) ∧
  (∀ l ∈ t.original_title, l.length = t.nrows) ∧
  (∀ l ∈ t.overview, l.length = t.nrows)

/-- `movies.get (column, default_column)`. -/
def getColD {α : Type} (c : Option (List α)) (n : ℕ) (d : α) : List α :=
  c.getD (List.replicate n d)

/-- The genres column (first.py, line 86): default is an all-NaN column. -/
def genresCol (t : InputTable) : List PyVal :=
  getColD t.genres t.nrows .nan

/-- `movies ["genres_list"]`: the parsed category lists, one per row. -/
def genresList (t : InputTable) : List (List String) :=
  (genresCol t).map extract_genre_names

/-- The budget column (first.py, line 89): default all-NaN. -/
def budgetCol (t : InputTable) : List PyVal :=
  getColD t.budget t.nrows .nan

/-- The numeric budget column after `to_numeric (…, errors = "coerce")`. -/
def budgetRaw (t : InputTable) : List (Option ℚ) :=
  (budgetCol t).map toNumeric

/-- The budget after zeros-as-missing and `fillna (0)` (lines 91-92). -/
def budgetFilled (t : InputTable) : List ℚ :=
  (budgetRaw t).map (fun o => (budgetMissZero o).getD 0)

/-- The log-transformed budget column, `np.log1p (budget.fillna (0))`. -/
noncomputable def budgetLog (t : InputTable) : List ℝ :=
  (budgetFilled t).map (fun q : ℚ => log1p ((q : ℝ)))

/-- `movies ["budget_norm"]`: the min-max scaled log budget (line 94). -/
noncomputable def budgetNorm (t : InputTable) : List ℝ :=
  minMaxScale (budgetLog t)

/-- The log-transformed budget column in the float model: a budget cell at
or below `-1` becomes a non-finite cell. -/
noncomputable def budgetLogF (t : InputTable) : List (Option ℝ) :=
  (budgetFilled t).map (fun q : ℚ => log1pF ((q : ℝ)))

/-- `movies ["budget_norm"]` in the float model: non-finite cells survive
the scaler. -/
noncomputable def budgetNormF (t : InputTable) : List (Option ℝ) :=
  minMaxScaleF (budgetLogF t)

/-- The adult column after coercion (line 97): default all-`False`. -/
def adultCol (t : InputTable) : List Bool :=
  (getColD t.adult t.nrows (.bool false)).map coerce_adult

/-- The language column after the default and `fillna ("unknown")`
(line 100): a missing cell becomes the literal category `"unknown"`. -/
def langFilled (t : InputTable) : List String :=
  (getColD t.original_language t.nrows (some "unknown")).map (fun c => c.getD "unknown")

/-- The fitted one-hot vocabulary: the distinct observed language values,
sorted as the encoder sorts its categories. -/
def langCats (t : InputTable) : List String :=
  List.insertionSort (fun a b => a ≤ b) (langFilled t).dedup

/-- The one-hot indicator block, one row per input row (line 102). -/
def langDf (t : InputTable) : List (List ℕ) :=
  (langFilled t).map (langRow (langCats t))

/-- The fitted multi-label vocabulary: the distinct category names seen
anywhere in the batch, sorted as `MultiLabelBinarizer` sorts its classes. -/
def mlbClasses (t : InputTable) : List String :=
  List.insertionSort (fun a b => a ≤ b) (genresList t).flatten.dedup

/-- The genre indicator block, one row per input row (line 108). -/
def genreDf (t : InputTable) : List (List ℕ) :=
  (genresList t).map (mlbRow (mlbClasses t))

/-- One assembled output row: the available passthrough cells, the two
always-assigned feature cells, and the two indicator blocks. -/
structure OutRow where
  id : Option PyVal
  original_title : Option PyVal
  overview : Option PyVal
  budget_norm : ℝ
  adult : Bool
  genreInd : List ℕ
  langInd : List ℕ

/-- The default `OutRow`, used only as the out-of-range placeholder of
`List.getD`. -/
def rowD : OutRow :=
  { id := Option.none, original_title := Option.none, overview := Option.none,
    budget_norm := 0, adult := false, genreInd := [], langInd := [] }

/-- The assembled output: the derived column names and the concatenated
rows. -/
structure Processed where
  genreCols : List String
  langCols : List String
  rows : List OutRow

/-- The assembly (first.py, lines 113-125): passthrough columns only when
present in the input, `budget_norm` and `adult` always (they were assigned
by the pipeline), then the genre block and the language block, all joined
on row position. -/
noncomputable def preprocess (t : InputTable) : Processed :=
  { genreCols := (mlbClasses t).map (fun g => String.append "genre_" g)
    langCols := (langCats t).map (fun c => String.append "lang_" c)
    rows := List.ofFn (fun i : Fin t.nrows =>
      { id := t.id.map (fun c => c.getD i .nan)
        original_title := t.original_title.map (fun c => c.getD i .nan)
        overview := t.overview.map (fun c => c.getD i .nan)
        budget_norm := (budgetNorm t).getD i 0
        adult := (adultCol t).getD i false
        genreInd := (genreDf t).getD i []
        langInd := (langDf t).getD i [] }) }

/-- A one-row table with every column absent from the input schema. -/
def tAbsent : InputTable :=
  { nrows := 1, genres := Option.none, budget := Option.none, adult := Option.none,
    original_language := Option.none, id := Option.none,
    original_title := Option.none, overview := Option.none }

/-- A three-row table whose budgets are all missing, unparseable or zero. -/
def tDegenerate : InputTable :=
  { nrows := 3, genres := Option.none,
    budget := some [.nan, .str "abc", .num 0],
    adult := Option.none, original_language := Option.none,
    id := Option.none, original_title := Option.none, overview := Option.none }

/-- A two-row batch with budgets `1000000` and `-5`: the negative budget
survives the zero-as-missing step and `np.log1p (-5)` is NaN. -/
def tNegBudget : InputTable :=
  { nrows := 2, genres := Option.none,
    budget := some [.num 1000000, .num (-5)],
    adult := Option.none, original_language := Option.none,
    id := Option.none, original_title := Option.none, overview := Option.none }

/-- A concrete two-row batch exercising every column. -/
def tSample : InputTable :=
  { nrows := 2,
    genres := some [.str "[\x7b\"name\": \"Drama\"\x7d, \x7b\"name\": \"Comedy\"\x7d, \x7b\"name\": \"Drama\"\x7d]", .nan],
    budget := some [.num 1000000, .num 0],
    adult := some [.str "True", .none],
    original_language := some [some "en", Option.none],
    id := some [.num 1, .num 2],
    original_title := Option.none, overview := Option.none }

/-! ## Shared lemmas -/

/-- A parse failure of the literal parser makes the extractor return the
empty list: the `except` arm falls through to `return []`. -/
theorem extract_on_parse_failure (s : String) (h : literalEval s = Option.none) :
    extract_genre_names (.str s) = [] := by
  simp [extract_genre_names, h]

/-- A successful parse whose result is not a list also yields the empty
list: the `isinstance (parsed, list)` guard fails and the function falls
through to `return []`. -/
theorem extract_on_non_list (s : String) (v : PyVal) (h : literalEval s = some v)
    (hv : v.isList = false) : extract_genre_names (.str s) = [] := by
  cases v <;> simp_all [extract_genre_names, PyVal.isList]

/-- An input that is neither a structured list nor text yields the empty
list. -/
theorem extract_on_other (v : PyVal) (hl : v.isList = false) (hs : v.isStr = false) :
    extract_genre_names v = [] := by
  cases v <;> simp_all [extract_genre_names, PyVal.isList, PyVal.isStr]

/-! ## C2 -/

/-- C2: for every input value, `coerce_adult` returns exactly the boolean
of the specification's reference policy, clause for clause: native booleans
pass through, numeric values are truthy iff non-zero, trimmed lower-cased
text is matched against the affirmative and negative sets, and anything
else — unmatched text, `None`, missing — is false; in particular
`"Yes" → true`, `0 → false`, `None → false`, `2 → true`. -/
theorem coerce_adult_matches_spec :
    (∀ v : PyVal, coerce_adult v = coerceAdultSpec v) ∧
    coerce_adult (.str "Yes") = true ∧
    coerce_adult (.num 0) = false ∧
    coerce_adult .none = false ∧
    coerce_adult (.num 2) = true := by
  refine ⟨fun v => ?_, by decide, by decide, rfl, by decide⟩
  cases v <;> rfl

/-! ## C6 -/

/-- C6: `extract_genre_names` follows the specified policy on every input:
a structured list yields the `"name"` values of its dict-shaped elements
(others skipped), text is parsed as a literal structure with a parse
failure or a non-list result giving the empty sequence, any other input
gives the empty sequence, and the four documented examples hold. -/
theorem extract_genre_names_spec :
    extract_genre_names (.str "[\x7b\"id\": 16, \"name\": \"Animation\"\x7d]") = ["Animation"] ∧
    extract_genre_names .none = [] ∧
    extract_genre_names (.list [.dict [("id", .num 1)]]) = [] ∧
    extract_genre_names (.str "[\x7bname: Animation") = [] ∧
    (∀ gs : List PyVal, extract_genre_names (.list gs) = gs.filterMap nameOfGenre) ∧
    (∀ s, literalEval s = Option.none → extract_genre_names (.str s) = []) ∧
    (∀ s v, literalEval s = some v → v.isList = false → extract_genre_names (.str s) = []) ∧
    (∀ v : PyVal, v.isList = false → v.isStr = false → extract_genre_names v = []) :=
  ⟨by decide, rfl, rfl, by decide, fun gs => rfl,
   extract_on_parse_failure, extract_on_non_list, extract_on_other⟩

/-- Witness for C6 at concrete inputs: `"[oops"` fails to parse, and
`"None"` parses to a non-list value; both recover to the empty list. -/
theorem extract_genre_names_spec_witness :
    extract_genre_names (.str "[oops") = [] ∧ extract_genre_names (.str "None") = [] :=
  ⟨extract_genre_names_spec.2.2.2.2.2.1 "[oops" rfl,
   extract_genre_names_spec.2.2.2.2.2.2.1 "None" PyVal.none rfl rfl⟩

/-! ## C7 -/

/-- C7: the parse-level transforms never raise: the exception-transparent
embedding of `extract_genre_names` returns `ok` of the total function's
value on every input, `coerce_adult` is total, and every parse failure is
recovered locally to its default — the empty category list for the genre
field and a missing-then-zero value for the budget field. -/
theorem parse_level_never_raises :
    (∀ v : PyVal, extract_genre_namesE v = Except.ok (extract_genre_names v)) ∧
    (∀ v : PyVal, coerce_adult v = true ∨ coerce_adult v = false) ∧
    (∀ s, literalEval s = Option.none → extract_genre_names (.str s) = []) ∧
    (∀ v : PyVal, toNumeric v = Option.none →
      (budgetMissZero (toNumeric v)).getD 0 = 0) := by
  refine ⟨fun v => ?_, fun v => ?_, extract_on_parse_failure, fun v h => ?_⟩
  · cases v with
    | str s =>
      simp only [extract_genre_namesE, extract_genre_names, literalEvalE]
      cases h : literalEval s with
      | none => rfl
      | some p => cases p <;> rfl
    | _ => rfl
  · cases h : coerce_adult v
    · right; rfl
    · left; rfl
  · rw [h]; rfl

/-- Witness for C7 at concrete inputs: malformed genre text recovers to the
empty list, and an unparseable budget cell recovers to the filled zero. -/
theorem parse_level_never_raises_witness :
    extract_genre_names (.str "[broken") = [] ∧
    (budgetMissZero (toNumeric (.str "n/a"))).getD 0 = 0 :=
  ⟨parse_level_never_raises.2.2.1 "[broken" rfl,
   parse_level_never_raises.2.2.2 (.str "n/a") rfl⟩

/-! ## C3 -/

/-- The per-row sum of the indicator row counts the vocabulary entries
present in the row's list. -/
theorem mlbRow_sum (classes row : List String) :
    (mlbRow classes row).sum = (classes.filter (fun c => decide (c ∈ row))).length := by
  induction classes with
  | nil => rfl
  | cons c cs ih =>
    by_cases h : c ∈ row <;>
      simp [mlbRow, List.filter_cons, h, ih, List.sum_cons] <;> simp [mlbRow] at ih <;>
      omega

/-- Filtering a duplicate-free vocabulary down to one row's members gives
as many entries as the row has distinct members, provided the vocabulary
covers the row. -/
theorem filter_length_eq_dedup_length (classes row : List String)
    (hnd : classes.Nodup) (hsub : ∀ x ∈ row, x ∈ classes) :
    (classes.filter (fun c => decide (c ∈ row))).length = row.dedup.length := by
  have h1 : (classes.filter (fun c => decide (c ∈ row))).Nodup := hnd.filter _
  have h2 : row.dedup.Nodup := List.nodup_dedup row
  have hperm : List.Perm (classes.filter (fun c => decide (c ∈ row))) row.dedup := by
    rw [List.perm_ext_iff_of_nodup h1 h2]
    intro a
    simp only [List.mem_filter, List.mem_dedup, decide_eq_true_eq]
    exact ⟨fun h => h.2, fun h => ⟨hsub a h, h⟩⟩
  exact hperm.length_eq

/-- The fitted multi-label vocabulary has no duplicates. -/
theorem mlbClasses_nodup (t : InputTable) : (mlbClasses t).Nodup :=
  ((List.perm_insertionSort _ _).nodup_iff).2 (List.nodup_dedup _)

/-- The fitted multi-label vocabulary covers every name of every row. -/
theorem mem_mlbClasses (t : InputTable) (row : List String)
    (hrow : row ∈ genresList t) (x : String) (hx : x ∈ row) : x ∈ mlbClasses t := by
  unfold mlbClasses
  rw [List.mem_insertionSort, List.mem_dedup, List.mem_flatten]
  exact ⟨row, hrow, hx⟩

/-- C3: in every batch, the per-row sum of the genre indicator columns
equals the number of distinct category names of that row's parsed list —
duplicate names collapse to a single 1. -/
theorem genre_indicator_row_sum (t : InputTable) (i : ℕ)
    (h : i < (genresList t).length) :
    ((genreDf t).getD i []).sum = ((genresList t).getD i []).dedup.length := by
  have hlen : i < (genreDf t).length := by simpa [genreDf] using h
  rw [List.getD_eq_getElem _ _ hlen, List.getD_eq_getElem _ _ h]
  unfold genreDf
  rw [List.getElem_map]
  rw [mlbRow_sum]
  exact filter_length_eq_dedup_length _ _ (mlbClasses_nodup t)
    (mem_mlbClasses t _ (List.getElem_mem h))

/-- Witness for C3: the first sample row parses to
`["Drama", "Comedy", "Drama"]`, and its indicator row sums to the two
distinct names. -/
theorem genre_indicator_row_sum_witness :
    0 < (genresList tSample).length ∧
    ((genreDf tSample).getD 0 []).sum = ((genresList tSample).getD 0 []).dedup.length :=
  ⟨by decide, genre_indicator_row_sum tSample 0 (by decide)⟩

/-! ## C4 -/

/-- A value outside the category list contributes no indicator. -/
theorem langRow_count_zero (cats : List String) (v : String) (h : v ∉ cats) :
    (langRow cats v).count 1 = 0 := by
  induction cats with
  | nil => rfl
  | cons c cs ih =>
    have hc : ¬(c = v) := fun hc => h (hc ▸ List.mem_cons_self c cs)
    have hcs : v ∉ cs := fun hm => h (List.mem_cons_of_mem c hm)
    have ihh := ih hcs
    simp only [langRow] at ihh
    simp [langRow, List.map_cons, List.count_cons, hc, ihh]

/-- A value of a duplicate-free category list contributes exactly one
indicator. -/
theorem langRow_count_one (cats : List String) (v : String)
    (hnd : cats.Nodup) (hm : v ∈ cats) : (langRow cats v).count 1 = 1 := by
  induction cats with
  | nil => cases hm
  | cons c cs ih =>
    rcases List.mem_cons.1 hm with hv | hv
    · have hvc : v ∉ cs := by
        subst hv; exact (List.nodup_cons.1 hnd).1
      subst hv
      have hz := langRow_count_zero cs v hvc
      simp only [langRow] at hz
      simp [langRow, List.count_cons, hz]
    · have hc : ¬(c = v) := by
        rintro rfl; exact (List.nodup_cons.1 hnd).1 hv
      have := ih (List.nodup_cons.1 hnd).2 hv
      simp [langRow, List.count_cons, hc] at this ⊢
      simpa [langRow] using this

/-- Indicator rows contain only zeros and ones. -/
theorem langRow_mem_binary (cats : List String) (v : String) (x : ℕ)
    (hx : x ∈ langRow cats v) : x = 0 ∨ x = 1 := by
  unfold langRow at hx
  rcases List.mem_map.1 hx with ⟨c, _, hc⟩
  by_cases h : c = v <;> simp [h] at hc <;> omega

/-- The fitted one-hot vocabulary has no duplicates. -/
theorem langCats_nodup (t : InputTable) : (langCats t).Nodup :=
  ((List.perm_insertionSort _ _).nodup_iff).2 (List.nodup_dedup _)

/-- Every filled language value is in the fitted vocabulary. -/
theorem mem_langCats (t : InputTable) (v : String) (hv : v ∈ langFilled t) :
    v ∈ langCats t := by
  unfold langCats
  rw [List.mem_insertionSort, List.mem_dedup]
  exact hv

/-- C4: every row of the one-hot language block has exactly one indicator
set (all others zero), and a missing language cell is encoded as the
literal category `"unknown"`. -/
theorem language_one_hot_row (t : InputTable) (i : ℕ)
    (h : i < (langFilled t).length) :
    (((langDf t).getD i []).count 1 = 1 ∧
      ∀ x ∈ (langDf t).getD i [], x = 0 ∨ x = 1) ∧
    ((getColD t.original_language t.nrows (some "unknown")).getD i (some "unknown") =
        Option.none →
      (langDf t).getD i [] = langRow (langCats t) "unknown") := by
  have hlen : i < (langDf t).length := by simpa [langDf] using h
  have hcol : i < (getColD t.original_language t.nrows (some "unknown")).length := by
    simpa [langFilled] using h
  rw [List.getD_eq_getElem _ _ hlen]
  unfold langDf
  rw [List.getElem_map]
  have hv : (langFilled t)[i] ∈ langFilled t := List.getElem_mem h
  refine ⟨⟨langRow_count_one _ _ (langCats_nodup t) (mem_langCats t _ hv),
    langRow_mem_binary _ _⟩, fun hmiss => ?_⟩
  have : (langFilled t)[i] = "unknown" := by
    unfold langFilled
    rw [List.getElem_map]
    rw [List.getD_eq_getElem _ _ hcol] at hmiss
    rw [hmiss]
    rfl
  rw [this]

/-- Witness for C4: the second sample row has a missing language and is
encoded as the single `"unknown"` indicator. -/
theorem language_one_hot_row_witness :
    ((langDf tSample).getD 1 []).count 1 = 1 ∧
    (langDf tSample).getD 1 [] = langRow (langCats tSample) "unknown" :=
  ⟨(language_one_hot_row tSample 1 (by decide)).1.1,
   (language_one_hot_row tSample 1 (by decide)).2 (by decide)⟩

/-! ## Scaler lemmas -/

theorem foldl_min_le_init (l : List ℝ) (a : ℝ) : l.foldl min a ≤ a := by
  induction l generalizing a with
  | nil => exact le_refl a
  | cons b bs ih => exact le_trans (ih (min a b)) (min_le_left a b)

theorem foldl_min_le_mem (l : List ℝ) (a x : ℝ) (hx : x ∈ l) : l.foldl min a ≤ x := by
  induction l generalizing a with
  | nil => cases hx
  | cons b bs ih =>
    rcases List.mem_cons.1 hx with h | h
    · subst h
      exact le_trans (foldl_min_le_init bs (min a x)) (min_le_right a x)
    · exact ih (min a b) h

theorem le_foldl_max_init (l : List ℝ) (a : ℝ) : a ≤ l.foldl max a := by
  induction l generalizing a with
  | nil => exact le_refl a
  | cons b bs ih => exact le_trans (le_max_left a b) (ih (max a b))

theorem le_foldl_max_mem (l : List ℝ) (a x : ℝ) (hx : x ∈ l) : x ≤ l.foldl max a := by
  induction l generalizing a with
  | nil => cases hx
  | cons b bs ih =>
    rcases List.mem_cons.1 hx with h | h
    · subst h
      exact le_trans (le_max_right a x) (le_foldl_max_init bs (max a x))
    · exact ih (max a b) h

/-- The scaler's fitted minimum bounds every column entry from below. -/
theorem listMin_le_mem (xs : List ℝ) (x : ℝ) (hx : x ∈ xs) : listMin xs ≤ x := by
  cases xs with
  | nil => cases hx
  | cons a l =>
    rcases List.mem_cons.1 hx with h | h
    · subst h; exact foldl_min_le_init l x
    · exact foldl_min_le_mem l a x h

/-- The scaler's fitted maximum bounds every column entry from above. -/
theorem mem_le_listMax (xs : List ℝ) (x : ℝ) (hx : x ∈ xs) : x ≤ listMax xs := by
  cases xs with
  | nil => cases hx
  | cons a l =>
    rcases List.mem_cons.1 hx with h | h
    · subst h; exact le_foldl_max_init l x
    · exact le_foldl_max_mem l a x h

/-- Min-max scaling a column fitted on itself lands in the closed unit
interval, the degenerate constant column included. -/
theorem minMaxScale_mem_unit (xs : List ℝ) (y : ℝ) (hy : y ∈ minMaxScale xs) :
    0 ≤ y ∧ y ≤ 1 := by
  unfold minMaxScale at hy
  rcases List.mem_map.1 hy with ⟨x, hx, rfl⟩
  have hlo : listMin xs ≤ x := listMin_le_mem xs x hx
  have hhi : x ≤ listMax xs := mem_le_listMax xs x hx
  unfold mmScale
  by_cases h : listMax xs - listMin xs = 0
  · have hx0 : x = listMin xs := le_antisymm (by linarith [sub_eq_zero.1 h]) hlo
    rw [if_pos h, hx0]
    norm_num
  · have hpos : 0 < listMax xs - listMin xs := lt_of_le_of_ne (by linarith) (Ne.symm h)
    rw [if_neg h, mul_one_div]
    constructor
    · exact div_nonneg (by linarith) (le_of_lt hpos)
    · rw [div_le_one hpos]
      linarith

/-- The fold of `min` over a constant list stays at the constant. -/
theorem foldl_min_replicate (n : ℕ) (c : ℝ) :
    (List.replicate n c).foldl min c = c := by
  induction n with
  | zero => rfl
  | succ m ih => simpa [List.replicate_succ, min_self] using ih

/-- The fold of `max` over a constant list stays at the constant. -/
theorem foldl_max_replicate (n : ℕ) (c : ℝ) :
    (List.replicate n c).foldl max c = c := by
  induction n with
  | zero => rfl
  | succ m ih => simpa [List.replicate_succ, max_self] using ih

/-- On a constant column the fitted range is zero, the divisor is replaced
by one, and the scaled output is the constant zero column. -/
theorem minMaxScale_replicate (n : ℕ) (c : ℝ) :
    minMaxScale (List.replicate n c) = List.replicate n 0 := by
  cases n with
  | zero => rfl
  | succ m =>
    have hmin : listMin (List.replicate (m + 1) c) = c := by
      simp [List.replicate_succ, listMin, foldl_min_replicate]
    have hmax : listMax (List.replicate (m + 1) c) = c := by
      simp [List.replicate_succ, listMax, foldl_max_replicate]
    unfold minMaxScale mmScale
    rw [hmin, hmax, sub_self, if_pos rfl]
    rw [List.map_replicate]
    simp

/-- When every budget cell of the batch is missing, unparseable or zero,
the filled column is constant zero. -/
theorem budgetFilled_all_zero (t : InputTable)
    (hall : ∀ v ∈ budgetCol t, toNumeric v = Option.none ∨ toNumeric v = some 0) :
    budgetFilled t = List.replicate (budgetCol t).length 0 := by
  have hlen : (budgetFilled t).length = (budgetCol t).length := by
    simp [budgetFilled, budgetRaw]
  rw [← hlen]
  apply List.eq_replicate_of_mem
  intro b hb
  unfold budgetFilled budgetRaw at hb
  rw [List.map_map] at hb
  rcases List.mem_map.1 hb with ⟨v, hv, rfl⟩
  rcases hall v hv with h | h <;> simp [h, budgetMissZero]

/-- In the degenerate all-missing batch the log column is constant zero and
the min-max scaler outputs the constant zero column. -/
theorem budgetNorm_all_zero (t : InputTable)
    (hall : ∀ v ∈ budgetCol t, toNumeric v = Option.none ∨ toNumeric v = some 0) :
    budgetLog t = List.replicate (budgetCol t).length 0 ∧
    budgetNorm t = List.replicate (budgetCol t).length 0 := by
  have hlog : budgetLog t = List.replicate (budgetCol t).length 0 := by
    unfold budgetLog
    rw [budgetFilled_all_zero t hall, List.map_replicate]
    simp [log1p]
  exact ⟨hlog, by unfold budgetNorm; rw [hlog, minMaxScale_replicate]⟩

/-! ## C1 -/

/-- C1 counterexample: in the two-row batch with budgets `1000000` and
`-5`, the `-5` survives the zero-as-missing replacement and `fillna`, the
program computes `np.log1p (-5)` — NaN — and the scaler propagates it:
the normalized budget of row 1 is the non-finite cell, which lies in no
interval, so the unrestricted claim fails on this batch. -/
theorem budget_norm_nan_counterexample :
    (budgetNormF tNegBudget).getD 1 (some 0) = Option.none ∧
    ¬ ∃ y : ℝ, (budgetNormF tNegBudget).getD 1 (some 0) = some y ∧ 0 ≤ y ∧ y ≤ 1 := by
  have hfill : budgetFilled tNegBudget = [1000000, -5] := by decide
  have h5 : log1pF ((-5 : ℝ)) = Option.none := by
    unfold log1pF
    rw [if_neg]
    norm_num
  have hnan : (budgetNormF tNegBudget).getD 1 (some 0) = Option.none := by
    unfold budgetNormF budgetLogF
    rw [hfill]
    simp [minMaxScaleF, h5]
  refine ⟨hnan, ?_⟩
  rintro ⟨y, hy, _⟩
  rw [hnan] at hy
  cases hy

/-- C1 (amended): when every filled budget value exceeds `-1` — in
particular for every batch of nonnegative budgets however skewed, and for
all-missing or all-equal batches, whose filled values are `0` — the float
pipeline produces no NaN, agrees with the exact-real model, and every
value of the normalized budget column lies within `[0, 1]` inclusive. -/
theorem budget_norm_in_unit_interval (t : InputTable)
    (hgt : ∀ q ∈ budgetFilled t, (-1 : ℝ) < ((q : ℝ))) :
    budgetNormF t = (budgetNorm t).map some ∧
    ∀ o ∈ budgetNormF t, ∃ y : ℝ, o = some y ∧ 0 ≤ y ∧ y ≤ 1 := by
  have hlog : budgetLogF t = (budgetLog t).map some := by
    unfold budgetLogF budgetLog
    rw [List.map_map]
    apply List.map_congr_left
    intro q hq
    unfold log1pF
    rw [if_pos (hgt q hq)]
    rfl
  have hfin : finiteVals ((budgetLog t).map some) = budgetLog t := by
    unfold finiteVals
    simp [List.filterMap_map]
  have hmain : budgetNormF t = (budgetNorm t).map some := by
    unfold budgetNormF minMaxScaleF budgetNorm minMaxScale
    rw [hlog, hfin, List.map_map, List.map_map]
    rfl
  refine ⟨hmain, fun o ho => ?_⟩
  rw [hmain] at ho
  rcases List.mem_map.1 ho with ⟨y, hy, rfl⟩
  exact ⟨y, rfl, minMaxScale_mem_unit (budgetLog t) y hy⟩

/-- Witness for the amended C1 at the concrete sample batch: its filled
budgets `1000000` and `0` exceed `-1`, so the float pipeline agrees with
the exact model there. -/
theorem budget_norm_in_unit_interval_witness :
    (∀ q ∈ budgetFilled tSample, (-1 : ℝ) < ((q : ℝ))) ∧
    budgetNormF tSample = (budgetNorm tSample).map some := by
  have hfill : budgetFilled tSample = [1000000, 0] := by decide
  have h : ∀ q ∈ budgetFilled tSample, (-1 : ℝ) < ((q : ℝ)) := by
    rw [hfill]
    intro q hq
    rcases List.mem_cons.1 hq with rfl | hq
    · norm_num
    rcases List.mem_cons.1 hq with rfl | hq
    · norm_num
    cases hq
  exact ⟨h, (budget_norm_in_unit_interval tSample h).1⟩

/-! ## C8 -/

/-- C8: when every budget value of the batch is missing, unparseable or
zero, the fitted minimum and maximum of the log column coincide, and the
scaler — its zero range replaced by one, never dividing by zero — outputs
the constant `0.0` column. -/
theorem budget_norm_degenerate_batch (t : InputTable)
    (hall : ∀ v ∈ budgetCol t, toNumeric v = Option.none ∨ toNumeric v = some 0) :
    listMin (budgetLog t) = listMax (budgetLog t) ∧
    budgetNorm t = List.replicate (budgetCol t).length 0 := by
  obtain ⟨hlog, hnorm⟩ := budgetNorm_all_zero t hall
  refine ⟨?_, hnorm⟩
  rw [hlog]
  cases h : (budgetCol t).length with
  | zero => rfl
  | succ m =>
    simp [List.replicate_succ, listMin, listMax, foldl_min_replicate, foldl_max_replicate]

/-- Witness for C8 at the concrete degenerate batch: cells NaN, `"abc"`
and `0` all collapse, and the normalized column is `[0, 0, 0]`. -/
theorem budget_norm_degenerate_batch_witness :
    (∀ v ∈ budgetCol tDegenerate, toNumeric v = Option.none ∨ toNumeric v = some 0) ∧
    budgetNorm tDegenerate = List.replicate 3 0 :=
  ⟨by decide, (budget_norm_degenerate_batch tDegenerate (by decide)).2⟩

/-! ## C9 -/

/-- The filled budget value of one row, read off the raw cell. -/
theorem budgetFilled_getD (t : InputTable) (i : ℕ) (hi : i < (budgetCol t).length) :
    (budgetFilled t).getD i 0 =
      (budgetMissZero (toNumeric ((budgetCol t).getD i .nan))).getD 0 := by
  have hlen : i < (budgetFilled t).length := by
    simpa [budgetFilled, budgetRaw] using hi
  rw [List.getD_eq_getElem _ _ hlen, List.getD_eq_getElem _ _ hi]
  unfold budgetFilled budgetRaw
  simp [List.getElem_map]

/-- The normalized budget of one row is a fixed function of that row's
filled value and the batch statistics. -/
theorem budgetNorm_getD (t : InputTable) (i : ℕ) (hi : i < (budgetCol t).length) :
    (budgetNorm t).getD i 0 =
      (log1p ((budgetFilled t).getD i 0) - listMin (budgetLog t)) * mmScale (budgetLog t) := by
  have hf : i < (budgetFilled t).length := by
    simpa [budgetFilled, budgetRaw] using hi
  have hl : i < (budgetLog t).length := by simpa [budgetLog] using hf
  have hn : i < (budgetNorm t).length := by simpa [budgetNorm, minMaxScale] using hl
  rw [List.getD_eq_getElem _ _ hn, List.getD_eq_getElem _ _ hf]
  unfold budgetNorm minMaxScale
  rw [List.getElem_map]
  unfold budgetLog
  rw [List.getElem_map]

/-- C9: a row whose budget is the literal zero and a row whose budget is
missing or unparseable receive the same normalized value: both are imputed
to zero before the log transform, so both contribute `log1p 0`. -/
theorem budget_zero_missing_collapse (t : InputTable) (i j : ℕ)
    (hi : i < (budgetCol t).length) (hj : j < (budgetCol t).length)
    (h0 : toNumeric ((budgetCol t).getD i .nan) = some 0)
    (hm : toNumeric ((budgetCol t).getD j .nan) = Option.none) :
    (budgetNorm t).getD i 0 = (budgetNorm t).getD j 0 := by
  have hfi : (budgetFilled t).getD i 0 = 0 := by
    rw [budgetFilled_getD t i hi, h0]; rfl
  have hfj : (budgetFilled t).getD j 0 = 0 := by
    rw [budgetFilled_getD t j hj, hm]; rfl
  rw [budgetNorm_getD t i hi, budgetNorm_getD t j hj, hfi, hfj]

/-- Witness for C9 at the concrete degenerate batch: the zero-budget row
and the NaN-budget row normalize identically. -/
theorem budget_zero_missing_collapse_witness :
    toNumeric ((budgetCol tDegenerate).getD 2 .nan) = some 0 ∧
    toNumeric ((budgetCol tDegenerate).getD 0 .nan) = Option.none ∧
    (budgetNorm tDegenerate).getD 2 0 = (budgetNorm tDegenerate).getD 0 0 :=
  ⟨by decide, by decide,
   budget_zero_missing_collapse tDegenerate 2 0 (by decide) (by decide)
     (by decide) (by decide)⟩

/-! ## C5 -/

/-- A present column read through `movies.get` has one cell per row; the
default column supplied for an absent one does too. -/
theorem getColD_length {α : Type} (c : Option (List α)) (n : ℕ) (d : α)
    (h : ∀ l ∈ c, l.length = n) : (getColD c n d).length = n := by
  cases c with
  | none => simp [getColD]
  | some l => simpa [getColD] using h l rfl

/-- C5: the assembled output has exactly one row per input row, and row `i`
of the output is computed from row `i` of every input column — the adult
flag, the genre indicators, the language indicators and the normalized
budget of row `i`, plus the passthrough cells of row `i` — so row order is
never permuted. -/
theorem output_row_alignment (t : InputTable) :
    (preprocess t).rows.length = t.nrows ∧
    (t.WF → ∀ i, i < t.nrows →
      ((preprocess t).rows.getD i rowD).adult =
        coerce_adult ((getColD t.adult t.nrows (.bool false)).getD i (.bool false)) ∧
      ((preprocess t).rows.getD i rowD).genreInd =
        mlbRow (mlbClasses t) (extract_genre_names ((genresCol t).getD i .nan)) ∧
      ((preprocess t).rows.getD i rowD).langInd =
        langRow (langCats t) ((langFilled t).getD i "unknown") ∧
      ((preprocess t).rows.getD i rowD).budget_norm = (budgetNorm t).getD i 0 ∧
      ((preprocess t).rows.getD i rowD).id = t.id.map (fun c => c.getD i .nan) ∧
      ((preprocess t).rows.getD i rowD).original_title =
        t.original_title.map (fun c => c.getD i .nan) ∧
      ((preprocess t).rows.getD i rowD).overview =
        t.overview.map (fun c => c.getD i .nan)) := by
  constructor
  · simp [preprocess]
  intro hwf i hi
  obtain ⟨hg, hb, ha, hl, _, _, _⟩ := hwf
  have hrows : i < (preprocess t).rows.length := by simpa [preprocess] using hi
  have hrow : (preprocess t).rows.getD i rowD =
      { id := t.id.map (fun c => c.getD i .nan)
        original_title := t.original_title.map (fun c => c.getD i .nan)
        overview := t.overview.map (fun c => c.getD i .nan)
        budget_norm := (budgetNorm t).getD i 0
        adult := (adultCol t).getD i false
        genreInd := (genreDf t).getD i []
        langInd := (langDf t).getD i [] } := by
    rw [List.getD_eq_getElem _ _ hrows]
    simp [preprocess]
  rw [hrow]
  have hacol : i < (getColD t.adult t.nrows (.bool false)).length := by
    rw [getColD_length _ _ _ ha]; exact hi
  have hgcol : i < (genresCol t).length := by
    unfold genresCol; rw [getColD_length _ _ _ hg]; exact hi
  have hlcol : i < (langFilled t).length := by
    unfold langFilled
    rw [List.length_map, getColD_length _ _ _ hl]; exact hi
  refine ⟨?_, ?_, ?_, rfl, rfl, rfl, rfl⟩
  · have hac : i < (adultCol t).length := by simpa [adultCol] using hacol
    rw [List.getD_eq_getElem _ _ hac, List.getD_eq_getElem _ _ hacol]
    unfold adultCol
    rw [List.getElem_map]
  · have hgd : i < (genreDf t).length := by
      simpa [genreDf, genresList, genresCol] using hgcol
    have hgl : i < (genresList t).length := by
      simpa [genresList, genresCol] using hgcol
    rw [List.getD_eq_getElem _ _ hgd, List.getD_eq_getElem _ _ hgcol]
    unfold genreDf genresList
    rw [List.getElem_map, List.getElem_map]
  · have hld : i < (langDf t).length := by simpa [langDf] using hlcol
    rw [List.getD_eq_getElem _ _ hld, List.getD_eq_getElem _ _ hlcol]
    unfold langDf
    rw [List.getElem_map]

/-- Witness for C5 at the concrete two-row batch. -/
theorem output_row_alignment_witness :
    (preprocess tSample).rows.length = 2 ∧
    ((preprocess tSample).rows.getD 0 rowD).genreInd =
      mlbRow (mlbClasses tSample) (extract_genre_names ((genresCol tSample).getD 0 .nan)) := by
  have hwf : tSample.WF := by
    refine ⟨?_, ?_, ?_, ?_, ?_, ?_, ?_⟩ <;> intro l hl <;>
      simp only [tSample, Option.mem_def, Option.some.injEq] at hl <;>
      first
        | (subst hl; rfl)
        | cases hl
  exact ⟨(output_row_alignment tSample).1,
    ((output_row_alignment tSample).2 hwf 0 (by decide)).2.1⟩

/-! ## C10 -/

/-- The distinct values of a constant column form the one-element list. -/
theorem dedup_replicate_succ {α : Type} [DecidableEq α] (m : ℕ) (a : α) :
    (List.replicate (m + 1) a).dedup = [a] := by
  induction m with
  | zero => rfl
  | succ k ih =>
    have hmem : a ∈ List.replicate (k + 1) a := by
      rw [List.mem_replicate]; exact ⟨Nat.succ_ne_zero k, rfl⟩
    rw [List.replicate_succ, List.dedup_cons_of_mem hmem, ih]

/-- C10: `preprocess` tolerates the absence of each of the four core input
columns: the output still has one row per input row, and the per-column
defaults apply — every parsed genre list empty, the normalized budget the
constant-zero column (also at output-row level), the adult flag all false
(also at output-row level), and the language vocabulary the single
category `"unknown"`. -/
theorem preprocess_tolerates_absent_columns (t : InputTable) :
    (preprocess t).rows.length = t.nrows ∧
    (t.genres = Option.none → ∀ l ∈ genresList t, l = []) ∧
    (t.budget = Option.none → budgetNorm t = List.replicate t.nrows 0) ∧
    (t.adult = Option.none → ∀ b ∈ adultCol t, b = false) ∧
    (t.original_language = Option.none → 0 < t.nrows → langCats t = ["unknown"]) ∧
    (t.budget = Option.none → ∀ i, i < t.nrows →
      ((preprocess t).rows.getD i rowD).budget_norm = 0) ∧
    (t.adult = Option.none → ∀ i, i < t.nrows →
      ((preprocess t).rows.getD i rowD).adult = false) := by
  have hbudget : t.budget = Option.none → budgetNorm t = List.replicate t.nrows 0 := by
    intro hb
    have hcol : budgetCol t = List.replicate t.nrows .nan := by
      simp [budgetCol, getColD, hb]
    have hall : ∀ v ∈ budgetCol t, toNumeric v = Option.none ∨ toNumeric v = some 0 := by
      intro v hv
      rw [hcol] at hv
      rw [(List.mem_replicate.1 hv).2]
      left; rfl
    have := (budgetNorm_all_zero t hall).2
    rwa [hcol, List.length_replicate] at this
  have hadult : t.adult = Option.none → adultCol t = List.replicate t.nrows false := by
    intro ha
    simp [adultCol, getColD, ha, List.map_replicate, coerce_adult]
  refine ⟨by simp [preprocess], ?_, hbudget, ?_, ?_, ?_, ?_⟩
  · intro hg l hl
    unfold genresList genresCol at hl
    rw [hg] at hl
    simp only [getColD, Option.getD_none, List.map_replicate] at hl
    exact (List.mem_replicate.1 hl).2
  · intro ha b hb
    rw [hadult ha] at hb
    exact (List.mem_replicate.1 hb).2
  · intro hl hn
    unfold langCats langFilled
    rw [hl]
    simp only [getColD, Option.getD_none, List.map_replicate, Option.getD_some]
    obtain ⟨m, hm⟩ := Nat.exists_eq_add_of_lt hn
    rw [hm]
    rw [show 0 + m + 1 = m + 1 by omega]
    rw [dedup_replicate_succ]
    rfl
  · intro hb i hi
    have hrows : i < (preprocess t).rows.length := by simpa [preprocess] using hi
    rw [List.getD_eq_getElem _ _ hrows]
    simp only [preprocess, List.getElem_ofFn]
    rw [hbudget hb]
    rw [List.getD_eq_getElem _ _ (by simpa using hi)]
    simp
  · intro ha i hi
    have hrows : i < (preprocess t).rows.length := by simpa [preprocess] using hi
    rw [List.getD_eq_getElem _ _ hrows]
    simp only [preprocess, List.getElem_ofFn]
    rw [hadult ha]
    rw [List.getD_eq_getElem _ _ (by simpa using hi)]
    simp

/-- Witness for C10 at the one-row table with every column absent. -/
theorem preprocess_tolerates_absent_columns_witness :
    (preprocess tAbsent).rows.length = 1 ∧
    budgetNorm tAbsent = List.replicate 1 0 ∧
    langCats tAbsent = ["unknown"] ∧
    ((preprocess tAbsent).rows.getD 0 rowD).adult = false :=
  ⟨(preprocess_tolerates_absent_columns tAbsent).1,
   (preprocess_tolerates_absent_columns tAbsent).2.2.1 rfl,
   (preprocess_tolerates_absent_columns tAbsent).2.2.2.2.1 rfl (by decide),
   (preprocess_tolerates_absent_columns tAbsent).2.2.2.2.2.2 rfl 0 (by decide)⟩

end MoviePrep
